import Mathlib

/-!
Verification of the data-preparation pipeline of the customer-churn
notebook.  The notebook is a linear script: generate a synthetic
customer table, add the derived columns `average_monthly_charges` and
`customer_lifetime_value`, inject missing `TotalCharges` values and
`MonthlyCharges` outliers, impute, scale, split, augment with a ratio
feature, and rebalance with synthetic oversampling before a tuning
split.  Each stage is embedded below as a pure function; random draws
of the generator become explicit parameters, with the documented
ranges of the library generators appearing as hypotheses.
-/

namespace Churn

/-- One row's random draws, as produced by the generating cell: every
column of the table except `CustomerID` (which is `np.arange(1, n+1)`)
and the two derived columns. -/
structure Draw where
  age : ℤ
  gender : String
  contractType : String
  monthlyCharges : ℚ
  totalCharges : ℚ
  tenure : ℤ
  techSupport : String
  internetService : String
  paperlessBilling : String
  paymentMethod : String
  churn : String
  deriving DecidableEq

/-- One row of the persisted table.  Float columns of the dataframe are
nullable (`NaN` is `none`); `Tenure` and `Age` come from integer
generators and stay integral. -/
structure Row where
  customerID : ℕ
  age : ℤ
  gender : String
  contractType : String
  monthlyCharges : Option ℚ
  totalCharges : Option ℚ
  tenure : ℤ
  techSupport : String
  internetService : String
  paperlessBilling : String
  paymentMethod : String
  churn : String
  average_monthly_charges : Option ℚ
  customer_lifetime_value : Option ℚ
  deriving DecidableEq

/-- Build the `i`-th freshly generated row (derived columns not yet
present, hence `none`); `CustomerID` is `i + 1`. -/
def mkRow (i : ℕ) (d : Draw) : Row :=
  { customerID := i + 1
    age := d.age
    gender := d.gender
    contractType := d.contractType
    monthlyCharges := some d.monthlyCharges
    totalCharges := some d.totalCharges
    tenure := d.tenure
    techSupport := d.techSupport
    internetService := d.internetService
    paperlessBilling := d.paperlessBilling
    paymentMethod := d.paymentMethod
    churn := d.churn
    average_monthly_charges := none
    customer_lifetime_value := none }

/-- The derived-features cell:
`average_monthly_charges = TotalCharges / np.where(Tenure == 0, 1, Tenure)`
and `customer_lifetime_value = MonthlyCharges * Tenure`.  Arithmetic on
a nullable column propagates nullness, as `NaN` does. -/
def addDerived (r : Row) : Row :=
  { r with
    average_monthly_charges :=
      r.totalCharges.map (fun tc => tc / (((if r.tenure = 0 then 1 else r.tenure) : ℤ) : ℚ))
    customer_lifetime_value :=
      r.monthlyCharges.map (fun mc => mc * (r.tenure : ℚ)) }

/-- Effect of the missing-value injection on the row at position `i`:
`data.loc[chosen, 'TotalCharges'] = np.nan`. -/
def missRow (missIdx : List ℕ) (i : ℕ) (r : Row) : Row :=
  if i ∈ missIdx then { r with totalCharges := none } else r

/-- Effect of the outlier injection on the row at position `i`:
`data.loc[chosen, 'MonthlyCharges'] *= 1.5`. -/
def outRow (outIdx : List ℕ) (i : ℕ) (r : Row) : Row :=
  if i ∈ outIdx then
    { r with monthlyCharges := r.monthlyCharges.map (fun mc => mc * (3 / 2)) }
  else r

/-- Map a function that also receives the position, starting the count
at `s`; positional dataframe operations are maps of this shape. -/
def mapIdxFrom (f : ℕ → α → β) : ℕ → List α → List β
  | _, [] => []
  | s, a :: l => f s a :: mapIdxFrom f (s + 1) l

/-- Positional map over a whole column, indices from 0 as in the
dataframe's default integer index. -/
def mapWithIdx (f : ℕ → α → β) (l : List α) : List β :=
  mapIdxFrom f 0 l

/-- The generating cell: one row per draw. -/
def genRows (draws : List Draw) : List Row :=
  mapWithIdx mkRow draws

/-- The derived-features cell applied to the whole table. -/
def addDerivedAll (rows : List Row) : List Row :=
  rows.map addDerived

/-- The missing-value injection over the whole table, given the indices
chosen by `np.random.choice(data.index, size=50, replace=False)`. -/
def setMissing (missIdx : List ℕ) (rows : List Row) : List Row :=
  mapWithIdx (missRow missIdx) rows

/-- The outlier injection over the whole table, given the indices
chosen by `np.random.choice(data.index, size=10, replace=False)`. -/
def inflateOutliers (outIdx : List ℕ) (rows : List Row) : List Row :=
  mapWithIdx (outRow outIdx) rows

/-- The full generation stage in the notebook's order: generate, add
derived columns, inject missing values, inject outliers.  This is the
table persisted to `data/customer_data.csv`. -/
def generateDataset (draws : List Draw) (missIdx outIdx : List ℕ) : List Row :=
  inflateOutliers outIdx (setMissing missIdx (addDerivedAll (genRows draws)))

lemma length_mapIdxFrom (f : ℕ → α → β) :
    ∀ (s : ℕ) (l : List α), (mapIdxFrom f s l).length = l.length := by
  intro s l
  induction l generalizing s with
  | nil => rfl
  | cons a t ih => simp [mapIdxFrom, ih]

lemma get_mapIdxFrom (f : ℕ → α → β) :
    ∀ (s : ℕ) (l : List α) (i : ℕ) (h : i < l.length)
      (h2 : i < (mapIdxFrom f s l).length),
      (mapIdxFrom f s l).get ⟨i, h2⟩ = f (s + i) (l.get ⟨i, h⟩) := by
  intro s l
  induction l generalizing s with
  | nil => intro i h _; exact absurd h (by simp)
  | cons a t ih =>
    intro i h h2
    cases i with
    | zero => simp [mapIdxFrom]
    | succ j =>
      have hj : j < t.length := by simpa using h
      have hj2 : j < (mapIdxFrom f (s + 1) t).length := by
        simpa [length_mapIdxFrom] using hj
      have := ih (s + 1) j hj hj2
      simpa [mapIdxFrom, Nat.add_assoc, Nat.add_comm 1 j] using this

lemma map_mapIdxFrom (g : β → γ) (f : ℕ → α → β) :
    ∀ (s : ℕ) (l : List α),
      (mapIdxFrom f s l).map g = mapIdxFrom (fun i a => g (f i a)) s l := by
  intro s l
  induction l generalizing s with
  | nil => rfl
  | cons a t ih => simp [mapIdxFrom, ih]

lemma mapIdxFrom_mapIdxFrom (g : ℕ → β → γ) (f : ℕ → α → β) :
    ∀ (s : ℕ) (l : List α),
      mapIdxFrom g s (mapIdxFrom f s l) = mapIdxFrom (fun i a => g i (f i a)) s l := by
  intro s l
  induction l generalizing s with
  | nil => rfl
  | cons a t ih => simp [mapIdxFrom, ih]

lemma zip_mapIdxFrom (f : ℕ → α → β) :
    ∀ (s : ℕ) (l : List α),
      (mapIdxFrom f s l).zip l = mapIdxFrom (fun i a => (f i a, a)) s l := by
  intro s l
  induction l generalizing s with
  | nil => rfl
  | cons a t ih => simp [mapIdxFrom, List.zip_cons_cons, ih]

/-- The whole generation stage is a single positional map over the
draws. -/
lemma generateDataset_eq (draws : List Draw) (missIdx outIdx : List ℕ) :
    generateDataset draws missIdx outIdx =
      mapWithIdx (fun i d => outRow outIdx i (missRow missIdx i (addDerived (mkRow i d)))) draws := by
  unfold generateDataset inflateOutliers setMissing addDerivedAll genRows mapWithIdx
  rw [map_mapIdxFrom, mapIdxFrom_mapIdxFrom, mapIdxFrom_mapIdxFrom]

lemma length_generateDataset (draws : List Draw) (missIdx outIdx : List ℕ) :
    (generateDataset draws missIdx outIdx).length = draws.length := by
  rw [generateDataset_eq]; exact length_mapIdxFrom _ 0 draws

lemma get_generateDataset (draws : List Draw) (missIdx outIdx : List ℕ)
    (i : ℕ) (hd : i < draws.length)
    (hg : i < (generateDataset draws missIdx outIdx).length) :
    (generateDataset draws missIdx outIdx).get ⟨i, hg⟩ =
      outRow outIdx i (missRow missIdx i (addDerived (mkRow i (draws.get ⟨i, hd⟩)))) := by
  have hg2 : i < (mapWithIdx
      (fun i d => outRow outIdx i (missRow missIdx i (addDerived (mkRow i d)))) draws).length := by
    simpa [mapWithIdx, length_mapIdxFrom] using hd
  have := get_mapIdxFrom
    (fun i d => outRow outIdx i (missRow missIdx i (addDerived (mkRow i d)))) 0 draws i hd hg2
  simp only [Nat.zero_add] at this
  rw [List.get_of_eq (generateDataset_eq draws missIdx outIdx)]
  exact this

/-- A concrete draw consistent with the generator's documented ranges
(`Age` in [18,70), `MonthlyCharges` in [20,120], `TotalCharges` in
[100,8000], `Tenure` in [1,72)). -/
def sampleDraw : Draw :=
  { age := 30
    gender := "Male"
    contractType := "One year"
    monthlyCharges := 20
    totalCharges := 100
    tenure := 1
    techSupport := "Yes"
    internetService := "DSL"
    paperlessBilling := "Yes"
    paymentMethod := "Cash"
    churn := "No" }

/-- C1 counterexample: in the persisted dataset, a row selected for
outlier inflation has `customer_lifetime_value` computed from the
pre-inflation `MonthlyCharges`, so it differs from final
`MonthlyCharges * Tenure`.  Here the single row is inflated
(`MonthlyCharges` becomes 30) while `customer_lifetime_value` stays
20 = 20 * 1. -/
theorem churn_C1_counterexample :
    ¬ ∀ r ∈ generateDataset [sampleDraw] [] [0],
        r.customer_lifetime_value = r.monthlyCharges.map (fun mc => mc * (r.tenure : ℚ)) := by
  intro h
  have hg : 0 < (generateDataset [sampleDraw] [] [0]).length := by
    simp [length_generateDataset]
  have heq := h _ (List.get_mem (generateDataset [sampleDraw] [] [0]) 0 hg)
  rw [get_generateDataset [sampleDraw] [] [0] 0 (by simp) hg] at heq
  norm_num [outRow, missRow, addDerived, mkRow, sampleDraw] at heq

/-- C1 (amended): every row's `customer_lifetime_value` equals its
pre-outlier-injection `MonthlyCharges` times `Tenure`; for rows not
selected for inflation this coincides with final
`MonthlyCharges * Tenure`, while selected rows carry a final
`MonthlyCharges` equal to 1.5 times the value used for
`customer_lifetime_value`. -/
theorem churn_C1_amended (draws : List Draw) (missIdx outIdx : List ℕ)
    (i : ℕ) (hd : i < draws.length)
    (hg : i < (generateDataset draws missIdx outIdx).length) :
    ((generateDataset draws missIdx outIdx).get ⟨i, hg⟩).customer_lifetime_value
        = some ((draws.get ⟨i, hd⟩).monthlyCharges * ((draws.get ⟨i, hd⟩).tenure : ℚ)) ∧
    (i ∉ outIdx →
      ((generateDataset draws missIdx outIdx).get ⟨i, hg⟩).customer_lifetime_value
        = ((generateDataset draws missIdx outIdx).get ⟨i, hg⟩).monthlyCharges.map
            (fun mc => mc * (((generateDataset draws missIdx outIdx).get ⟨i, hg⟩).tenure : ℚ))) ∧
    (i ∈ outIdx →
      ((generateDataset draws missIdx outIdx).get ⟨i, hg⟩).monthlyCharges
        = some ((draws.get ⟨i, hd⟩).monthlyCharges * (3 / 2))) := by
  rw [get_generateDataset draws missIdx outIdx i hd hg]
  by_cases ho : i ∈ outIdx <;> by_cases hm : i ∈ missIdx <;>
    simp [outRow, missRow, addDerived, mkRow, ho, hm]

/-- Witness for the amended C1 at a concrete input: the inflated row's
final monthly charge is 1.5 times the value that entered
`customer_lifetime_value`. -/
theorem churn_C1_witness :
    ((generateDataset [sampleDraw] [] [0]).get ⟨0, by decide⟩).monthlyCharges
      = some (sampleDraw.monthlyCharges * (3 / 2)) :=
  (churn_C1_amended [sampleDraw] [] [0] 0 (by decide) (by decide)).2.2 (by decide)

/-- C9: on generator output (`Tenure = np.random.randint(1, 72)`, low
inclusive, high exclusive) every row's tenure lies in [1, 71], is
never 0, and `average_monthly_charges` equals the unguarded quotient
`TotalCharges / Tenure`: the `np.where(Tenure == 0, 1, Tenure)` guard
branch is unreachable. -/
theorem churn_C9 (draws : List Draw) (missIdx outIdx : List ℕ)
    (htn : ∀ d ∈ draws, 1 ≤ d.tenure ∧ d.tenure ≤ 71)
    (i : ℕ) (hd : i < draws.length)
    (hg : i < (generateDataset draws missIdx outIdx).length) :
    1 ≤ ((generateDataset draws missIdx outIdx).get ⟨i, hg⟩).tenure ∧
    ((generateDataset draws missIdx outIdx).get ⟨i, hg⟩).tenure ≤ 71 ∧
    ((generateDataset draws missIdx outIdx).get ⟨i, hg⟩).tenure ≠ 0 ∧
    ((generateDataset draws missIdx outIdx).get ⟨i, hg⟩).average_monthly_charges
      = some ((draws.get ⟨i, hd⟩).totalCharges / ((draws.get ⟨i, hd⟩).tenure : ℚ)) := by
  have ht := htn (draws.get ⟨i, hd⟩) (List.get_mem draws i hd)
  rw [get_generateDataset draws missIdx outIdx i hd hg]
  simp only [List.get_eq_getElem] at ht ⊢
  have htz : draws[i].tenure ≠ 0 := by omega
  by_cases ho : i ∈ outIdx <;> by_cases hm : i ∈ missIdx <;>
    simp [outRow, missRow, addDerived, mkRow, ho, hm, htz] <;> omega

/-- Witness for C9 at a concrete input. -/
theorem churn_C9_witness :
    ((generateDataset [sampleDraw] [] []).get ⟨0, by decide⟩).average_monthly_charges
      = some (sampleDraw.totalCharges / (sampleDraw.tenure : ℚ)) :=
  (churn_C9 [sampleDraw] [] [] (by decide) 0 (by decide) (by decide)).2.2.2

/-- C10: both derived columns are computed before the missing-value
injection, so in the persisted dataset `average_monthly_charges` and
`customer_lifetime_value` are non-null on every row — including the
rows whose `TotalCharges` was set to null afterwards. -/
theorem churn_C10 (draws : List Draw) (missIdx outIdx : List ℕ) (i : ℕ)
    (hg : i < (generateDataset draws missIdx outIdx).length) :
    ((generateDataset draws missIdx outIdx).get ⟨i, hg⟩).average_monthly_charges.isSome ∧
    ((generateDataset draws missIdx outIdx).get ⟨i, hg⟩).customer_lifetime_value.isSome := by
  have hd : i < draws.length := by
    simpa [length_generateDataset] using hg
  rw [get_generateDataset draws missIdx outIdx i hd hg]
  by_cases ho : i ∈ outIdx <;> by_cases hm : i ∈ missIdx <;>
    simp [outRow, missRow, addDerived, mkRow, ho, hm]

/-- Witness for C10 at a concrete input whose `TotalCharges` is nulled
by the injection. -/
theorem churn_C10_witness :
    ((generateDataset [sampleDraw] [0] []).get ⟨0, by decide⟩).average_monthly_charges.isSome ∧
    ((generateDataset [sampleDraw] [0] []).get ⟨0, by decide⟩).customer_lifetime_value.isSome :=
  churn_C10 [sampleDraw] [0] [] 0 (by decide)

/-- Arithmetic mean of a column, as the library computes it. -/
def mean (xs : List ℚ) : ℚ := xs.sum / (xs.length : ℚ)

/-- The non-null entries of a nullable column. -/
def observed (col : List (Option ℚ)) : List ℚ := col.filterMap id

/-- Modelled from the spec: `SimpleImputer(strategy='mean')`, an
external library call, replaces null total-charge entries with the
column mean computed over the non-null values and leaves non-null
entries unchanged. -/
def imputeMean (col : List (Option ℚ)) : List (Option ℚ) :=
  col.map (fun x => some (x.getD (mean (observed col))))

/-- C3: after imputation no entry is null; every previously-null entry
holds the pre-imputation mean of the non-null entries; non-null
entries are unchanged. -/
theorem churn_C3 (col : List (Option ℚ)) :
    (∀ y ∈ imputeMean col, y.isSome) ∧
    ∀ (i : ℕ) (hi : i < col.length) (hi2 : i < (imputeMean col).length),
      (col.get ⟨i, hi⟩ = none →
        (imputeMean col).get ⟨i, hi2⟩ = some (mean (observed col))) ∧
      ∀ v, col.get ⟨i, hi⟩ = some v → (imputeMean col).get ⟨i, hi2⟩ = some v := by
  constructor
  · intro y hy
    rcases List.mem_map.mp hy with ⟨x, _, hx⟩
    simp [← hx]
  · intro i hi hi2
    constructor
    · intro hnone
      simp only [List.get_eq_getElem] at hnone
      simp [imputeMean, List.get_eq_getElem, List.getElem_map, hnone]
    · intro v hv
      simp only [List.get_eq_getElem] at hv
      simp [imputeMean, List.get_eq_getElem, List.getElem_map, hv]

/-- Witness for C3: in the column `[some 1, none, some 3]` the null
entry is filled with the mean of the observed values. -/
theorem churn_C3_witness :
    (imputeMean [some 1, none, some 3]).get ⟨1, by decide⟩
      = some (mean (observed [some 1, none, some 3])) :=
  ((churn_C3 [some 1, none, some 3]).2 1 (by decide) (by decide)).1 rfl

/-- A row of a split feature subset, restricted to the two columns the
feature-engineering cell reads; at that point both are scaled floats. -/
structure FeatRow where
  monthlyCharges : ℚ
  tenure : ℚ
  deriving DecidableEq

/-- The feature-engineering cell's formula:
`MonthlyCharges / np.where(Tenure == 0, 1, Tenure)`. -/
def monthly_to_tenure_ratio (r : FeatRow) : ℚ :=
  r.monthlyCharges / (if r.tenure = 0 then 1 else r.tenure)

/-- The feature-engineering cell applied to one split subset: each row
is paired with its computed `monthly_to_tenure_ratio`. -/
def augmentRatio (X : List FeatRow) : List (FeatRow × ℚ) :=
  X.map (fun r => (r, monthly_to_tenure_ratio r))

/-- C2: on each split subset the augmenter computes the ratio as
`MonthlyCharges` divided by `Tenure` with divisor 1 substituted when
`Tenure = 0`; in particular a tenure-0 row's ratio equals its monthly
charge. -/
theorem churn_C2 (Xtrain Xtest : List FeatRow) (p : FeatRow × ℚ)
    (hp : p ∈ augmentRatio Xtrain ++ augmentRatio Xtest) :
    p.2 = p.1.monthlyCharges / (if p.1.tenure = 0 then 1 else p.1.tenure) ∧
    (p.1.tenure = 0 → p.2 = p.1.monthlyCharges) := by
  have hform : p.2 = monthly_to_tenure_ratio p.1 := by
    rcases List.mem_append.mp hp with h | h <;>
      · rcases List.mem_map.mp h with ⟨r, _, hr⟩
        rw [← hr]
  constructor
  · exact hform
  · intro h0
    rw [hform]
    simp [monthly_to_tenure_ratio, h0]

/-- Witness for C2: a tenure-0 row's ratio equals its monthly charge. -/
theorem churn_C2_witness :
    monthly_to_tenure_ratio ⟨5, 0⟩ = (5 : ℚ) :=
  (churn_C2 [⟨5, 0⟩] [] (⟨5, 0⟩, monthly_to_tenure_ratio ⟨5, 0⟩)
    (by simp [augmentRatio])).2 rfl

/-- Population variance of a column (`ddof = 0`), as the scaler fits
it. -/
def variance (xs : List ℚ) : ℚ := mean (xs.map (fun x => (x - mean xs) ^ 2))

/-- Modelled from the spec: the scaler guards a zero scale (constant,
zero-variance column) by substituting 1 as the divisor instead of
dividing by zero. -/
def scaleGuard (s : ℚ) : ℚ := if s = 0 then 1 else s

/-- Modelled from the spec: `StandardScaler` standardizes a column to
zero mean and unit variance using the column's own mean and scale `s`
(the square root of its variance), fit on the same full-dataset column
it transforms, before any split. -/
def standardizeWith (xs : List ℚ) (s : ℚ) : List ℚ :=
  xs.map (fun x => (x - mean xs) / scaleGuard s)

lemma sum_map_sub_const (xs : List ℚ) (c : ℚ) :
    (xs.map (fun x => x - c)).sum = xs.sum - (xs.length : ℚ) * c := by
  induction xs with
  | nil => simp
  | cons a t ih =>
    simp only [List.map_cons, List.sum_cons, ih, List.length_cons, Nat.cast_succ]
    ring

lemma sum_map_mul_const (xs : List ℚ) (f : ℚ → ℚ) (c : ℚ) :
    (xs.map (fun x => f x * c)).sum = (xs.map f).sum * c := by
  induction xs with
  | nil => simp
  | cons a t ih =>
    simp only [List.map_cons, List.sum_cons, ih]
    ring

lemma length_ne_zero_q (xs : List ℚ) (hne : xs ≠ []) : (xs.length : ℚ) ≠ 0 := by
  have : xs.length ≠ 0 := by
    simpa [List.length_eq_zero] using hne
  exact_mod_cast this

lemma sum_sub_mean (xs : List ℚ) (hne : xs ≠ []) :
    (xs.map (fun x => x - mean xs)).sum = 0 := by
  have hn := length_ne_zero_q xs hne
  rw [sum_map_sub_const, mean]
  field_simp

lemma mean_standardizeWith (xs : List ℚ) (s : ℚ) (hne : xs ≠ []) :
    mean (standardizeWith xs s) = 0 := by
  have hsum : (xs.map (fun x => (x - mean xs) / scaleGuard s)).sum = 0 := by
    simp only [div_eq_mul_inv]
    rw [sum_map_mul_const, sum_sub_mean xs hne, zero_mul]
  rw [mean, standardizeWith, List.length_map, hsum, zero_div]

/-- C6: standardization with the column's own statistics (scale `s`
with `s ^ 2` the column variance, fit on the full dataset before the
split) yields a column of mean 0 and variance 1 — equivalently
standard deviation 1 — under exact arithmetic, given non-zero
pre-scaling variance. -/
theorem churn_C6 (xs : List ℚ) (s : ℚ) (hne : xs ≠ []) (hs : 0 < s)
    (hvar : s ^ 2 = variance xs) :
    mean (standardizeWith xs s) = 0 ∧ variance (standardizeWith xs s) = 1 := by
  have hn := length_ne_zero_q xs hne
  have hsz : s ≠ 0 := ne_of_gt hs
  have hm0 : mean (standardizeWith xs s) = 0 := mean_standardizeWith xs s hne
  refine ⟨hm0, ?_⟩
  have hsq : (standardizeWith xs s).map (fun z => (z - mean (standardizeWith xs s)) ^ 2)
      = xs.map (fun x => (x - mean xs) ^ 2 * s⁻¹ ^ 2) := by
    rw [hm0]
    simp only [standardizeWith, scaleGuard, if_neg hsz, List.map_map]
    congr 1
    funext y
    simp only [Function.comp_apply]
    rw [sub_zero, div_eq_mul_inv, mul_pow]
  have hS : (xs.map (fun x => (x - mean xs) ^ 2)).sum = s ^ 2 * (xs.length : ℚ) := by
    rw [variance, mean, List.length_map] at hvar
    field_simp at hvar
    linarith
  rw [variance, hsq, mean, List.length_map,
    sum_map_mul_const xs (fun x => (x - mean xs) ^ 2) (s⁻¹ ^ 2), hS]
  field_simp

/-- Witness for C6: the column `[0, 2]` has mean 1 and variance 1, so
scale 1; standardizing it yields mean 0 and variance 1. -/
theorem churn_C6_witness :
    mean (standardizeWith [0, 2] 1) = 0 ∧ variance (standardizeWith [0, 2] 1) = 1 :=
  churn_C6 [0, 2] 1 (by simp) (by norm_num)
    (by norm_num [variance, mean])

/-- Modelled from the spec: selecting a list of named columns from a
table with the given header fails — surfacing the missing names to the
caller, with no recovery — when any requested column is absent. -/
def selectColumns (header cols : List String) : Except (List String) (List String) :=
  if cols.all (fun c => decide (c ∈ header)) then Except.ok cols
  else Except.error (cols.filter (fun c => decide (c ∉ header)))

lemma mean_replicate (n : ℕ) (c : ℚ) (hn : n ≠ 0) :
    mean (List.replicate n c) = c := by
  have hq : ((n : ℚ)) ≠ 0 := Nat.cast_ne_zero.mpr hn
  rw [mean, List.sum_replicate, List.length_replicate, nsmul_eq_mul]
  field_simp

lemma variance_replicate (n : ℕ) (c : ℚ) : variance (List.replicate n c) = 0 := by
  cases n with
  | zero => simp [variance, mean]
  | succ k =>
    rw [variance, mean_replicate (k + 1) c (Nat.succ_ne_zero k), List.map_replicate]
    simp [mean]

/-- C8: the preprocessor surfaces an error when a requested column is
absent from the input table; and on a constant (zero-variance) column
the standardization scale is guarded — divisor 1 is substituted for
the zero scale and the column maps to all zeros, with no unguarded
division by zero. -/
theorem churn_C8 :
    (∀ header cols c, c ∈ cols → c ∉ header →
        (selectColumns header cols).isOk = false) ∧
    (∀ (n : ℕ) (c s : ℚ), 0 ≤ s → s ^ 2 = variance (List.replicate n c) →
        standardizeWith (List.replicate n c) s = List.replicate n 0) := by
  constructor
  · intro header cols c hc hnc
    have hall : ¬ (cols.all (fun c => decide (c ∈ header)) = true) := by
      simp only [List.all_eq_true, decide_eq_true_eq]
      intro h
      exact hnc (h c hc)
    rw [selectColumns, if_neg hall]
    rfl
  · intro n c s hs0 hvar
    have hsz : s = 0 := by
      rw [variance_replicate n c] at hvar
      exact pow_eq_zero_iff two_ne_zero |>.mp hvar
    cases n with
    | zero => rfl
    | succ k =>
      rw [standardizeWith, hsz, scaleGuard, if_pos rfl,
        mean_replicate (k + 1) c (Nat.succ_ne_zero k), List.map_replicate]
      simp

/-- Witness for C8: requesting `TotalCharges` from an empty header
errors, and standardizing the constant column `[5, 5]` (variance 0,
scale 0) yields zeros with the guarded divisor. -/
theorem churn_C8_witness :
    (selectColumns [] [String.mk ['T']]).isOk = false ∧
    standardizeWith (List.replicate 2 (5 : ℚ)) 0 = List.replicate 2 0 :=
  ⟨churn_C8.1 [] [String.mk ['T']] (String.mk ['T']) (by simp) (by simp),
   churn_C8.2 2 5 0 le_rfl (by rw [variance_replicate]; norm_num)⟩

/-- Churn rate of a partition: positive (churn-encoded-1) rows over
total rows. -/
def churnRate (pos total : ℕ) : ℚ := (pos : ℚ) / (total : ℚ)

/-- Modelled from the spec: `train_test_split(test_size=0.2,
random_state=42, stratify=y)` on the 5000-row table draws a 1000-row
test partition and, stratifying on the encoded churn label, allocates
to the test partition a per-class count equal to the floor or the
ceiling of one fifth of that class's count. -/
def stratTestCountOk (p t : ℕ) : Bool := t == p / 5 || t == (p + 4) / 5

/-- C4: under the stratified 80/20 allocation, for any churn-class
count `p` out of 5000 rows, the churn rate of the 1000-row test
partition and of the 4000-row train partition each lie within 2
percentage points of the full-dataset churn rate. -/
theorem churn_C4 (p t : ℕ) (hp : p ≤ 5000) (ht : stratTestCountOk p t = true) :
    |churnRate t 1000 - churnRate p 5000| ≤ 2 / 100 ∧
    |churnRate (p - t) 4000 - churnRate p 5000| ≤ 2 / 100 := by
  have hcases : t = p / 5 ∨ t = (p + 4) / 5 := by
    simpa [stratTestCountOk] using ht
  have hb : p ≤ 5 * t + 4 ∧ 5 * t ≤ p + 4 ∧ t ≤ p := by omega
  have hb1 : (p : ℚ) ≤ 5 * t + 4 := by exact_mod_cast hb.1
  have hb2 : (5 : ℚ) * t ≤ p + 4 := by exact_mod_cast hb.2.1
  have hsub : ((p - t : ℕ) : ℚ) = (p : ℚ) - t := by
    push_cast [Nat.cast_sub hb.2.2]
    ring
  constructor
  · rw [churnRate, churnRate, abs_le]
    constructor <;> [linarith; linarith]
  · rw [churnRate, churnRate, hsub, abs_le]
    constructor <;> [linarith; linarith]

/-- Witness for C4 at a concrete allocation: 1000 churners of 5000,
200 of them in the test partition. -/
theorem churn_C4_witness :
    |churnRate 200 1000 - churnRate 1000 5000| ≤ 2 / 100 ∧
    |churnRate (1000 - 200) 4000 - churnRate 1000 5000| ≤ 2 / 100 :=
  churn_C4 1000 200 (by decide) (by decide)

/-- Modelled from the spec: synthetic minority oversampling
(`SMOTE.fit_resample`) keeps every original row and appends the
synthetic minority samples it generates. -/
def smoteResample {α : Type} (X synth : List α) : List α := X ++ synth

/-- Modelled from the spec: `train_test_split(test_size=0.2,
random_state=42)` shuffles the rows with the seeded source and holds
out the test partition; on a shuffle `rows` of the input it returns
`(rows.drop k, rows.take k)` for the held-out size `k`. -/
def splitHoldout {α : Type} (k : ℕ) (rows : List α) : List α × List α :=
  (rows.drop k, rows.take k)

/-- C5: in the tuning stage the oversampler is applied to the full
feature/label set and only afterwards is the resampled set
partitioned: the tuned-model train and test subsets together are
exactly (a permutation of) the resample of the full set — every
original row lands in one of the two subsets, and no oversampling
happens after the split or on the train subset alone. -/
theorem churn_C5 {α : Type} (X synth shuffled : List α) (k : ℕ)
    (hsh : shuffled.Perm (smoteResample X synth)) :
    ((splitHoldout k shuffled).1 ++ (splitHoldout k shuffled).2).Perm
        (smoteResample X synth) ∧
    ∀ x ∈ X, x ∈ (splitHoldout k shuffled).1 ++ (splitHoldout k shuffled).2 := by
  have hperm : ((splitHoldout k shuffled).1 ++ (splitHoldout k shuffled).2).Perm shuffled := by
    have h1 : ((splitHoldout k shuffled).1 ++ (splitHoldout k shuffled).2).Perm
        ((splitHoldout k shuffled).2 ++ (splitHoldout k shuffled).1) :=
      List.perm_append_comm
    have h2 : (splitHoldout k shuffled).2 ++ (splitHoldout k shuffled).1 = shuffled := by
      simp [splitHoldout]
    rw [h2] at h1
    exact h1
  refine ⟨hperm.trans hsh, ?_⟩
  intro x hx
  have hx2 : x ∈ smoteResample X synth := by
    simp [smoteResample, hx]
  exact (hperm.trans hsh).mem_iff.mpr hx2

/-- Witness for C5 at a concrete input: full set `[1, 2]`, one
synthetic sample `[3]`, identity shuffle, held-out size 1. -/
theorem churn_C5_witness :
    ((splitHoldout 1 [1, 2, 3]).1 ++ (splitHoldout 1 [1, 2, 3]).2).Perm
        (smoteResample [1, 2] [3]) ∧
    ∀ x ∈ [1, 2], x ∈ (splitHoldout 1 [1, 2, 3]).1 ++ (splitHoldout 1 [1, 2, 3]).2 :=
  churn_C5 [1, 2] [3] [1, 2, 3] 1 (List.Perm.refl _)

lemma length_filter_mapIdxFrom (f : ℕ → α → β) (p : β → Bool) (q : ℕ → Bool) :
    ∀ (l : List α) (s : ℕ),
      (∀ (i : ℕ) (h : i < l.length), p (f (s + i) (l.get ⟨i, h⟩)) = q (s + i)) →
      ((mapIdxFrom f s l).filter p).length = ((List.range' s l.length).filter q).length := by
  intro l
  induction l with
  | nil => intro s _; rfl
  | cons a t ih =>
    intro s hpt
    have h0 : p (f s a) = q s := by simpa using hpt 0 (by simp)
    have hrec := ih (s + 1) (fun i h => by
      have heq : s + (i + 1) = s + 1 + i := by omega
      have := hpt (i + 1) (by simpa using Nat.succ_lt_succ h)
      simpa [heq] using this)
    show ((f s a :: mapIdxFrom f (s + 1) t).filter p).length
        = ((s :: List.range' (s + 1) t.length).filter q).length
    rw [List.filter_cons, List.filter_cons, h0]
    cases hq : q s <;> simp [hq, hrec]

lemma length_filter_range_mem (m : List ℕ) (n : ℕ) (hnd : m.Nodup)
    (hlt : ∀ i ∈ m, i < n) :
    ((List.range n).filter (fun i => decide (i ∈ m))).length = m.length := by
  have hnd2 : ((List.range n).filter (fun i => decide (i ∈ m))).Nodup :=
    (List.nodup_range n).filter _
  have hmem : ∀ a, a ∈ (List.range n).filter (fun i => decide (i ∈ m)) ↔ a ∈ m := by
    intro a
    simp only [List.mem_filter, List.mem_range, decide_eq_true_eq]
    constructor
    · rintro ⟨_, h⟩; exact h
    · intro ha; exact ⟨hlt a ha, ha⟩
  exact ((List.perm_ext_iff_of_nodup hnd2 hnd).mpr hmem).length_eq

/-- Number of rows of the persisted dataset with a null
`TotalCharges`. -/
def countMissing (draws : List Draw) (missIdx outIdx : List ℕ) : ℕ :=
  ((generateDataset draws missIdx outIdx).filter (fun r => r.totalCharges.isNone)).length

/-- Number of rows of the persisted dataset whose final
`MonthlyCharges` is 1.5 times the monthly charge drawn for that
row. -/
def countInflated (draws : List Draw) (missIdx outIdx : List ℕ) : ℕ :=
  (((generateDataset draws missIdx outIdx).zip draws).filter
    (fun pr => decide (pr.1.monthlyCharges = some (pr.2.monthlyCharges * (3 / 2))))).length

/-- C7: with the injection index sets drawn without replacement
(pairwise-distinct, as `np.random.choice(..., replace=False)`
guarantees) of sizes 50 and 10, the persisted dataset has exactly 50
rows with a null `TotalCharges` and exactly 10 rows with a monthly
charge inflated by the factor 1.5 — no row counted twice within a
group. -/
theorem churn_C7 (draws : List Draw) (missIdx outIdx : List ℕ)
    (hm50 : missIdx.length = 50) (ho10 : outIdx.length = 10)
    (hmnd : missIdx.Nodup) (hond : outIdx.Nodup)
    (hmin : ∀ i ∈ missIdx, i < draws.length)
    (hoin : ∀ i ∈ outIdx, i < draws.length)
    (hmc : ∀ d ∈ draws, d.monthlyCharges ≠ 0) :
    countMissing draws missIdx outIdx = 50 ∧ countInflated draws missIdx outIdx = 10 := by
  have hgen := generateDataset_eq draws missIdx outIdx
  constructor
  · rw [countMissing, hgen, mapWithIdx,
      length_filter_mapIdxFrom _ _ (fun i => decide (i ∈ missIdx)) draws 0 ?_,
      ← List.range_eq_range', length_filter_range_mem missIdx draws.length hmnd hmin, hm50]
    intro i h
    simp only [Nat.zero_add]
    by_cases ho : i ∈ outIdx <;> by_cases hm : i ∈ missIdx <;>
      simp [outRow, missRow, addDerived, mkRow, ho, hm]
  · rw [countInflated, hgen, mapWithIdx, zip_mapIdxFrom,
      length_filter_mapIdxFrom _ _ (fun i => decide (i ∈ outIdx)) draws 0 ?_,
      ← List.range_eq_range', length_filter_range_mem outIdx draws.length hond hoin, ho10]
    intro i h
    have hmc0 := hmc (draws.get ⟨i, h⟩) (List.get_mem draws i h)
    simp only [Nat.zero_add, List.get_eq_getElem] at hmc0 ⊢
    have hneq : ¬ draws[i].monthlyCharges = draws[i].monthlyCharges * (3 / 2) := by
      intro heq
      have h2 : draws[i].monthlyCharges * 1 = draws[i].monthlyCharges * (3 / 2) := by
        rw [mul_one]; exact heq
      have h3 := mul_left_cancel₀ hmc0 h2
      norm_num at h3
    by_cases ho : i ∈ outIdx <;> by_cases hm : i ∈ missIdx <;>
      simp [outRow, missRow, addDerived, mkRow, ho, hm, hneq]

/-- Witness for C7: 50 replicated draws, injection index sets
`range 50` and `range 10`. -/
theorem churn_C7_witness :
    countMissing (List.replicate 50 sampleDraw) (List.range 50) (List.range 10) = 50 ∧
    countInflated (List.replicate 50 sampleDraw) (List.range 50) (List.range 10) = 10 :=
  churn_C7 (List.replicate 50 sampleDraw) (List.range 50) (List.range 10)
    (by simp) (by simp) (List.nodup_range 50) (List.nodup_range 10)
    (by intro i hi; simpa using List.mem_range.mp hi)
    (by intro i hi; have := List.mem_range.mp hi; simp; omega)
    (by intro d hd; rw [List.eq_of_mem_replicate hd]; norm_num [sampleDraw])

end Churn
